import Mathlib

/-
Verification of the quick-csv tokenizer and decoder (src/lib.rs, src/columns.rs,
src/error.rs) against its specification.

Bytes are modelled as `Nat` (34 = quote, 44 = comma, 10 = LF, 13 = CR).
The byte source is an in-memory byte list, as produced by `Csv::from_string` /
`Csv::from_reader(&[u8])`: for such a reader `fill_buf` returns the whole
remaining slice, so one `read_line` call scans the remaining input in a single
chunk and the cross-chunk `in_quote` resumption at the top of `read_line`
never runs.  Fallible operations return `Except Err`.
-/

namespace QuickCsv

/-- The error enum of src/error.rs.  `Io` carries no payload here (an in-memory
source never fails); `Decode` carries the two data holes of the message built
in `Columns::next_str` — the number printed as the column position
(`self.len()`) and the raw field text — instead of the formatted `String`.
`Parse` is never constructed by the library and is omitted.  The spelling
`UnexpextedQuote` (sic) is the source's. -/
inductive Err where
  | Io : Err
  | EOL : Err
  | UnescapedQuote : Err
  | UnexpextedQuote : Err
  | ColumnMismatch : Nat → Nat → Err
  | Decode : Nat → List Nat → Err
  deriving DecidableEq

/-- `Row` of src/lib.rs: the row's raw bytes (`line`) and the field-end
offsets (`cols`), before the final `cols.push(buf.len())` they are exactly the
two values assembled in `<Csv as Iterator>::next`. -/
structure Row where
  line : List Nat
  cols : List Nat
  deriving DecidableEq

/-- The scanner of `read_line` (src/lib.rs:312-369) together with the inlined
`consume_quote!` macro (src/lib.rs:283-310), transliterated byte by byte for a
single chunk covering the whole remaining input.

Arguments: delimiter, remaining input, `inQ` (scanning inside the
`consume_quote!` loop), absolute index `i` of the next byte, `qc`
(`quote_count`), `prev` (the byte at `i - 1`, `none` at the start; it is dead
while `inQ = true` and is reset to the closing quote on exit from the quote),
`cols` and `buf` accumulated so far.

Returns `(buf, cols, used, rest)`: the accumulated row bytes, the offsets
pushed at delimiters (`read + i - quote_count`), the total bytes consumed and
the unconsumed input.  `buf` receives every consumed byte except the second
quote of each escaped pair (`consume_quote!` writes `available[start..i]` and
skips that byte) and the terminating `\n` (the segment written at `\n` stops
just before it). -/
def scan (d : Nat) : List Nat → Bool → Nat → Nat → Option Nat → List Nat → List Nat →
    Except Err (List Nat × List Nat × Nat × List Nat)
  | [], _, i, _, _, cols, buf => .ok (buf, cols, i, [])
  | [c], true, i, _, _, cols, buf =>
    if c = 34 then
      -- closing quote, then the outer loop sees the end of the buffer
      .ok (buf ++ [34], cols, i + 1, [])
    else
      -- any byte inside a quote is content, then the buffer is exhausted
      .ok (buf ++ [c], cols, i + 1, [])
  | c :: r :: rest2, true, i, qc, prev, cols, buf =>
    if c = 34 then
      if r = 34 then
        -- escaped pair "" : keep one quote, skip the second, count it
        scan d rest2 true (i + 2) (qc + 1) prev cols (buf ++ [34])
      else if r = 13 ∨ r = 10 ∨ r = d then
        -- closing quote: leave quote mode, r is reconsidered by the main loop
        scan d (r :: rest2) false (i + 1) qc (some 34) cols (buf ++ [34])
      else .error .UnescapedQuote
    else scan d (r :: rest2) true (i + 1) qc (some c) cols (buf ++ [c])
  | c :: rest, false, i, qc, prev, cols, buf =>
    if c = 34 then
      if i = 0 ∨ prev = some d then
        scan d rest true (i + 1) qc (some 34) cols (buf ++ [34])
      else .error .UnexpextedQuote
    else if c = 10 then
      -- end of row: the newline is consumed but not written to buf
      .ok (buf, cols, i + 1, rest)
    else if c = d then
      scan d rest false (i + 1) qc (some c) (cols ++ [i - qc]) (buf ++ [c])
    else scan d rest false (i + 1) qc (some c) cols (buf ++ [c])

/-- `read_line` (src/lib.rs:312): scan the remaining input from a fresh state.
Returns `(buf, cols, used, rest)`; `used = 0` exactly when the input was
already empty (`fill_buf` empty on entry, Rust's `Ok(0)`). -/
def readLine (input : List Nat) (d : Nat) :
    Except Err (List Nat × List Nat × Nat × List Nat) :=
  scan d input false 0 0 none [] []

/-- The state of `Csv` (src/lib.rs:95-112) relevant to row iteration:
remaining reader bytes, delimiter, `flexible`, the expected column count
`len`, and the `exit` flag ("if was error, exit next").  `has_header`,
`headers` and `current_line` play no part in the iteration semantics of the
claims and are omitted. -/
structure CsvState where
  input : List Nat
  delim : Nat
  flexible : Bool
  len : Option Nat
  exit : Bool
  deriving DecidableEq

/-- `Csv::from_reader` followed by `.delimiter`/`.flexible`
(src/lib.rs:119-142). -/
def initCsv (input : List Nat) (d : Nat) (flex : Bool) : CsvState :=
  ⟨input, d, flex, none, false⟩

/-- `if buf.ends_with(&[b'\r']) { buf.pop(); }` of `<Csv as Iterator>::next`
(src/lib.rs:208-210). -/
def popCR (buf : List Nat) : List Nat :=
  if buf.getLast? = some 13 then buf.dropLast else buf

/-- `<Csv as Iterator>::next` (src/lib.rs:199-233).  Returns the produced item
(`none` = iteration over) and the successor state.  On `Ok(_n)` the trailing
`\r` is popped from `buf`, `buf.len()` is pushed onto `cols`, and the column
count is checked against `len` unless `flexible`; every error branch sets
`exit`. -/
def csvNext (s : CsvState) : Option (Except Err Row) × CsvState :=
  if s.exit then (none, s)
  else
    match readLine s.input s.delim with
    | .error e => (some (.error e), { s with exit := true })
    | .ok (buf, cols, used, rest) =>
      if used = 0 then (none, { s with input := rest })
      else
        match s.len with
        | none =>
          (some (.ok ⟨popCR buf, cols ++ [(popCR buf).length]⟩),
           { s with input := rest, len := some (cols ++ [(popCR buf).length]).length })
        | some n =>
          if n ≠ (cols ++ [(popCR buf).length]).length ∧ s.flexible = false then
            (some (.error (.ColumnMismatch n (cols ++ [(popCR buf).length]).length)),
             { s with input := rest, exit := true })
          else
            (some (.ok ⟨popCR buf, cols ++ [(popCR buf).length]⟩), { s with input := rest })

/-- Drive the iterator like `csv.collect()` does, with fuel (each produced row
consumes at least one input byte, so `input.length + 1` calls always reach the
terminal `none`). -/
def csvRun : Nat → CsvState → List (Except Err Row)
  | 0, _ => []
  | fuel + 1, s =>
    match csvNext s with
    | (none, _) => []
    | (some r, s') => r :: csvRun fuel s'

/-- The sub-slice `&line[a..b]` of Rust. -/
def listSlice (l : List Nat) (a b : Nat) : List Nat := (l.take b).drop a

/-- The unquoting step of `Columns::next` / `BytesColumns::next`
(src/columns.rs:25,68): `if s.starts_with('\"') { &s[1..s.len() - 1] } else { s }`.
Note the Rust indexing `&s[1..s.len() - 1]` is out of bounds (a panic) when
`s` starts with a quote and has length 1; this total model returns `[]` there,
and claim C10 is settled against the in-bounds condition itself. -/
def unquoteField (s : List Nat) : List Nat :=
  if s.head? = some 34 then (s.drop 1).dropLast else s

/-- The in-bounds condition assumed by `&s[1..s.len() - 1]`: a slice that
starts with a quote must hold at least the two surrounding quote bytes. -/
def quoteSliceSafe (s : List Nat) : Prop := s.head? = some 34 → 2 ≤ s.length

/-- `Columns` / `BytesColumns` iterator state (src/columns.rs:12-16,55-59):
cursor `pos`, the row bytes and the not-yet-consumed field-end offsets.  The
two iterators are identical on byte content; `Columns` additionally insists
the row is UTF-8, which every input in the claims satisfies. -/
structure Cols where
  pos : Nat
  line : List Nat
  offs : List Nat
  deriving DecidableEq

/-- `Row::columns` / `Row::bytes_columns` (src/lib.rs:246-257). -/
def Row.columns (r : Row) : Cols := ⟨0, r.line, r.cols⟩

/-- `Columns::next` (src/columns.rs:64-69): slice from `pos` to the next
offset, advance `pos` past it, unquote. -/
def colsNext (c : Cols) : Option (List Nat) × Cols :=
  match c.offs with
  | [] => (none, c)
  | p :: rest =>
    (some (unquoteField (listSlice c.line c.pos p)), { c with pos := p + 1, offs := rest })

/-- `Columns::peek` (src/columns.rs:95-100): same field, no state change. -/
def colsPeek (c : Cols) : Option (List Nat) :=
  match c.offs with
  | [] => none
  | p :: _ => some (unquoteField (listSlice c.line c.pos p))

/-- All fields of a row, i.e. `row.columns()` collected: `colsNext` repeated
until the offsets run out. -/
def fieldsAux (line : List Nat) (pos : Nat) : List Nat → List (List Nat)
  | [] => []
  | p :: rest => unquoteField (listSlice line pos p) :: fieldsAux line (p + 1) rest

/-- The field texts of a row as `Columns::next` yields them. -/
def Row.fields (r : Row) : List (List Nat) := fieldsAux r.line 0 r.cols

/-- The raw field slices (the `s` of `Columns::next` before unquoting). -/
def rawFieldsAux (line : List Nat) (pos : Nat) : List Nat → List (List Nat)
  | [] => []
  | p :: rest => listSlice line pos p :: rawFieldsAux line (p + 1) rest

/-- The raw slices handed to the unquoting step of `Columns::next` /
`BytesColumns::next`. -/
def Row.rawFields (r : Row) : List (List Nat) := rawFieldsAux r.line 0 r.cols

/-- Models `usize::from_str` on the inputs relevant here: a non-empty run of
ASCII digits parses to its value, anything else fails. -/
def parseNat? (l : List Nat) : Option Nat :=
  if !l.isEmpty && l.all (fun c => 48 ≤ c && c ≤ 57) then
    some (l.foldl (fun a c => a * 10 + (c - 48)) 0)
  else none

/-- `Columns::next_str::<usize>` (src/columns.rs:102-110), the body of
`read_usize`: consume the next field; at end of row fail with `EOL`; on parse
failure build `Error::Decode` from `self.len()` — the length of the offset
iterator AFTER the field was consumed — and the raw field text. -/
def nextNat (c : Cols) : Except Err Nat × Cols :=
  match colsNext c with
  | (none, c') => (.error .EOL, c')
  | (some col, c') =>
    match parseNat? col with
    | some n => (.ok n, c')
    | none => (.error (.Decode c'.offs.length col), c')

/-- `Columns::next_str::<String>` (the body of `read_str`): `String`'s
`FromStr` never fails, so this only consumes the field. -/
def nextStrCol (c : Cols) : Except Err (List Nat) × Cols :=
  match colsNext c with
  | (none, c') => (.error .EOL, c')
  | (some col, c') => (.ok col, c')

/-- `Columns::read_option` (src/columns.rs:202-211) instantiated at
`Option<usize>`: `rustc_serialize` passes `f` with `f(d, true) =
usize::decode(d).map(Some)` and `f(d, false) = Ok(None)`.  Peek the next
field; `EOL` if none; if it is empty, advance the offset iterator only
(`self.iter.next()` — the cursor `pos` is NOT advanced) and yield `none`;
otherwise run the wrapped decode and, on its failure, `or_else` yields `none`
on the post-failure state. -/
def readOptionNat (c : Cols) : Except Err (Option Nat) × Cols :=
  match colsPeek c with
  | none => (.error .EOL, c)
  | some col =>
    if col = [] then (.ok none, { c with offs := c.offs.drop 1 })
    else
      match nextNat c with
      | (.ok n, c') => (.ok (some n), c')
      | (.error _, c') => (.ok none, c')

/-- `row.decode::<(Option<usize>, String)>()`: the tuple decoder reads the two
components in order. -/
def decodeOptNatStr (c : Cols) : Except Err (Option Nat × List Nat) :=
  match readOptionNat c with
  | (.error e, _) => .error e
  | (.ok o, c1) =>
    match nextStrCol c1 with
    | (.error e, _) => .error e
    | (.ok s, _) => .ok (o, s)

/-! ## Helper lemmas -/

/-- A recorded offset points inside the buffer. -/
theorem pos_lt_of_mem {d : Nat} {cols buf : List Nat}
    (h : ∀ p ∈ cols, buf[p]? = some d) : ∀ p ∈ cols, p < buf.length := by
  intro p hp
  rcases List.getElem?_eq_some.mp (h p hp) with ⟨hlt, _⟩
  exact hlt

/-- Appending to the buffer preserves the recorded delimiter positions. -/
theorem mem_buf_append {d : Nat} {cols buf : List Nat} (ext : List Nat)
    (h : ∀ p ∈ cols, buf[p]? = some d) : ∀ p ∈ cols, (buf ++ ext)[p]? = some d := by
  intro p hp
  rw [List.getElem?_append_left (pos_lt_of_mem h p hp)]
  exact h p hp

/-- Pushing the current buffer length and then appending the delimiter byte
keeps the offsets strictly increasing and pointing at delimiter bytes. -/
theorem cols_push {d : Nat} {cols buf : List Nat}
    (hchain : List.Chain' (· < ·) cols) (hmem : ∀ p ∈ cols, buf[p]? = some d) :
    List.Chain' (· < ·) (cols ++ [buf.length]) ∧
      ∀ p ∈ cols ++ [buf.length], (buf ++ [d])[p]? = some d := by
  constructor
  · refine hchain.append (List.chain'_singleton _) ?_
    intro x hx y hy
    simp only [List.head?_cons, Option.mem_def, Option.some.injEq] at hy
    subst hy
    rcases List.mem_getLast?_eq_getLast hx with ⟨hne, hxe⟩
    exact pos_lt_of_mem hmem x (hxe ▸ List.getLast_mem hne)
  · intro p hp
    rcases List.mem_append.mp hp with h | h
    · exact mem_buf_append [d] hmem p h
    · simp only [List.mem_singleton] at h
      subst h
      exact List.getElem?_concat_length buf d

/-- The scanner's offsets invariant: starting from a state whose offsets are
strictly increasing, point at delimiter bytes of `buf`, and whose counters
satisfy `buf.length + qc = i`, a successful scan returns offsets that are
strictly increasing and point at delimiter bytes of the returned buffer. -/
theorem scan_inv (d : Nat) (l : List Nat) (inQ : Bool) (i qc : Nat) (prev : Option Nat)
    (cols buf : List Nat) :
    ∀ out, scan d l inQ i qc prev cols buf = .ok out →
      buf.length + qc = i →
      List.Chain' (· < ·) cols →
      (∀ p ∈ cols, buf[p]? = some d) →
      List.Chain' (· < ·) out.2.1 ∧ ∀ p ∈ out.2.1, out.1[p]? = some d := by
  induction l, inQ, i, qc, prev, cols, buf using scan.induct d with
  | case1 inQ i qc prev cols buf =>
    intro out hs _ hchain hmem
    simp only [scan.eq_1, Except.ok.injEq] at hs
    subst hs
    exact ⟨hchain, hmem⟩
  | case2 i qc prev cols buf =>
    intro out hs _ hchain hmem
    simp only [scan.eq_2, reduceIte, Except.ok.injEq] at hs
    subst hs
    exact ⟨hchain, mem_buf_append [34] hmem⟩
  | case3 c i qc prev cols buf hc =>
    intro out hs _ hchain hmem
    simp only [scan.eq_2, if_neg hc, Except.ok.injEq] at hs
    subst hs
    exact ⟨hchain, mem_buf_append [c] hmem⟩
  | case4 rest2 i qc prev cols buf ih =>
    intro out hs hlen hchain hmem
    simp only [scan.eq_3, reduceIte] at hs
    refine ih out hs ?_ hchain (mem_buf_append [34] hmem)
    simp only [List.length_append, List.length_cons, List.length_nil]
    omega
  | case5 r rest2 i qc prev cols buf hr hcl ih =>
    intro out hs hlen hchain hmem
    simp only [scan.eq_3, reduceIte, if_neg hr, if_pos hcl] at hs
    refine ih out hs ?_ hchain (mem_buf_append [34] hmem)
    simp only [List.length_append, List.length_cons, List.length_nil]
    omega
  | case6 r rest2 i qc prev cols buf hr hcl =>
    intro out hs _ _ _
    simp only [scan.eq_3, reduceIte, if_neg hr, if_neg hcl] at hs
    exact Except.noConfusion hs
  | case7 c r rest2 i qc prev cols buf hc ih =>
    intro out hs hlen hchain hmem
    simp only [scan.eq_3, if_neg hc] at hs
    refine ih out hs ?_ hchain (mem_buf_append [c] hmem)
    simp only [List.length_append, List.length_cons, List.length_nil]
    omega
  | case8 rest i qc prev cols buf hleg ih =>
    intro out hs hlen hchain hmem
    simp only [scan.eq_4, reduceIte, if_pos hleg] at hs
    refine ih out hs ?_ hchain (mem_buf_append [34] hmem)
    simp only [List.length_append, List.length_cons, List.length_nil]
    omega
  | case9 rest i qc prev cols buf hleg =>
    intro out hs _ _ _
    simp only [scan.eq_4, reduceIte, if_neg hleg] at hs
    exact Except.noConfusion hs
  | case10 rest i qc prev cols buf h34 =>
    intro out hs _ hchain hmem
    simp only [scan.eq_4, reduceIte, if_neg h34, Except.ok.injEq] at hs
    subst hs
    exact ⟨hchain, hmem⟩
  | case11 rest i qc prev cols buf h34 h10 ih =>
    intro out hs hlen hchain hmem
    simp only [scan.eq_4, if_neg h34, if_neg h10, eq_self_iff_true, if_true] at hs
    have he : i - qc = buf.length := by omega
    rw [he] at hs ih
    obtain ⟨hch2, hm2⟩ := cols_push hchain hmem
    refine ih out hs ?_ hch2 hm2
    simp only [List.length_append, List.length_cons, List.length_nil]
    omega
  | case12 c rest i qc prev cols buf hc h10 hcd ih =>
    intro out hs hlen hchain hmem
    simp only [scan.eq_4, if_neg hc, if_neg h10, if_neg hcd] at hs
    refine ih out hs ?_ hchain (mem_buf_append [c] hmem)
    simp only [List.length_append, List.length_cons, List.length_nil]
    omega

/-- Appending `(popCR buf).length` to offsets pointing at delimiter bytes of
`buf` keeps them strictly increasing and makes it the last offset, provided
the delimiter is not `\r` (so popping a trailing `\r` cannot remove a
recorded delimiter byte). -/
theorem final_cols (d : Nat) (hd : d ≠ 13) (buf cols : List Nat)
    (hchain : List.Chain' (· < ·) cols) (hmem : ∀ p ∈ cols, buf[p]? = some d) :
    List.Chain' (· < ·) (cols ++ [(popCR buf).length]) ∧
      (cols ++ [(popCR buf).length]).getLast? = some (popCR buf).length := by
  refine ⟨?_, List.getLast?_concat _⟩
  refine hchain.append (List.chain'_singleton _) ?_
  intro x hx y hy
  simp only [List.head?_cons, Option.mem_def, Option.some.injEq] at hy
  subst hy
  rcases List.mem_getLast?_eq_getLast hx with ⟨hne, hxe⟩
  have hxm : x ∈ cols := hxe ▸ List.getLast_mem hne
  have h2 := hmem x hxm
  rcases List.getElem?_eq_some.mp h2 with ⟨hlt, _⟩
  unfold popCR
  by_cases hlast : buf.getLast? = some 13
  · rw [if_pos hlast, List.length_dropLast]
    rcases Nat.lt_or_ge x (buf.length - 1) with h3 | h3
    · exact h3
    · have hx1 : x = buf.length - 1 := by omega
      have h13 : buf[x]? = some 13 := by
        rw [hx1, ← List.getLast?_eq_getElem?]
        exact hlast
      rw [h2] at h13
      injection h13 with h13
      exact absurd h13 hd
  · rw [if_neg hlast]
    exact hlt

/-! ## Claim theorems -/

/-- C1: the tokenizer plus column view strips surrounding quotes, preserves
embedded delimiters and collapses doubled quotes: input `"a,b"` (bytes
`[34,97,44,98,34]`) yields exactly one row whose single field text is `a,b`
(`[97,44,98]`), and input `"a""b"` (bytes `[34,97,34,34,98,34]`) yields one
row whose single field text is `a"b` (`[97,34,98]`). -/
theorem quoted_field_roundtrip :
    csvRun 6 (initCsv [34, 97, 44, 98, 34] 44 false) = [.ok ⟨[34, 97, 44, 98, 34], [5]⟩] ∧
    Row.fields ⟨[34, 97, 44, 98, 34], [5]⟩ = [[97, 44, 98]] ∧
    csvRun 7 (initCsv [34, 97, 34, 34, 98, 34] 44 false) = [.ok ⟨[34, 97, 34, 98, 34], [5]⟩] ∧
    Row.fields ⟨[34, 97, 34, 98, 34], [5]⟩ = [[97, 34, 98]] :=
  ⟨rfl, rfl, rfl, rfl⟩

/-- C2 counterexample: the claim that after a non-Io error such as
`ColumnMismatch` a subsequent `next` call can still attempt and produce
further rows is false.  On input `a\nx,y\nz\n` in strict mode the second call
returns `ColumnMismatch(1,2)`; the third call returns `none` even though the
unread input `z\n` (bytes `[122,10]`) on its own would produce the row `z`. -/
theorem error_stops_iteration_counterexample :
    csvRun 9 (initCsv [97, 10, 120, 44, 121, 10, 122, 10] 44 false) =
      [.ok ⟨[97], [1]⟩, .error (.ColumnMismatch 1 2)] ∧
    (csvNext (csvNext (csvNext (initCsv [97, 10, 120, 44, 121, 10, 122, 10] 44 false)).2).2).1 =
      none ∧
    (csvNext (csvNext (initCsv [97, 10, 120, 44, 121, 10, 122, 10] 44 false)).2).2.input =
      [122, 10] ∧
    csvRun 3 (initCsv [122, 10] 44 false) = [.ok ⟨[122], [1]⟩] :=
  ⟨rfl, rfl, rfl, rfl⟩

/-- C2 amended: every returned error — `ColumnMismatch` as well as
`UnescapedQuote`, `UnexpextedQuote` and `Io` — sets the `exit` flag, and once
`exit` is set every subsequent `next` call returns `none` without attempting
a row; no error is row-scoped for the iterator. -/
theorem any_error_sets_exit (s : CsvState) :
    (s.exit = true → csvNext s = (none, s)) ∧
    (∀ e s', csvNext s = (some (.error e), s') → s'.exit = true) := by
  constructor
  · intro h
    simp [csvNext, h]
  · intro e s' h
    unfold csvNext at h
    by_cases hx : s.exit
    · rw [if_pos hx] at h
      injection h with h1 _
      exact Option.noConfusion h1
    · rw [if_neg hx] at h
      cases hr : readLine s.input s.delim with
      | error e2 =>
        rw [hr] at h
        injection h with _ h2
        rw [← h2]
      | ok t =>
        obtain ⟨buf, cols, used, rest⟩ := t
        rw [hr] at h
        dsimp only at h
        by_cases hu : used = 0
        · rw [if_pos hu] at h
          injection h with h1 _
          exact Option.noConfusion h1
        · rw [if_neg hu] at h
          cases hl : s.len with
          | none =>
            rw [hl] at h
            dsimp only at h
            injection h with h1 _
            injection h1 with h1
            exact Except.noConfusion h1
          | some n =>
            rw [hl] at h
            dsimp only at h
            by_cases hc : n ≠ (cols ++ [(popCR buf).length]).length ∧ s.flexible = false
            · rw [if_pos hc] at h
              injection h with _ h2
              rw [← h2]
            · rw [if_neg hc] at h
              injection h with h1 _
              injection h1 with h1
              exact Except.noConfusion h1

/-- C2 amended, witness: a state with `exit` set yields `none`, and the
concrete `ColumnMismatch`-producing step (expected 1 column, input `x,y`)
lands in a state with `exit` set. -/
theorem any_error_sets_exit_witness :
    csvNext ⟨[], 44, false, some 1, true⟩ = (none, (⟨[], 44, false, some 1, true⟩ : CsvState)) ∧
    (⟨[], 44, false, some 1, true⟩ : CsvState).exit = true :=
  ⟨(any_error_sets_exit ⟨[], 44, false, some 1, true⟩).1 rfl,
   (any_error_sets_exit ⟨[120, 44, 121], 44, false, some 1, false⟩).2
     (.ColumnMismatch 1 2) ⟨[], 44, false, some 1, true⟩ rfl⟩

/-- C3: the first row's field count becomes the expected count.  Input `a\nx,y`
in strict mode yields the row `a` and then `ColumnMismatch(1,2)`; in flexible
mode it yields both rows, with field texts `["a"]` and `["x","y"]`. -/
theorem column_mismatch_policy :
    csvRun 6 (initCsv [97, 10, 120, 44, 121] 44 false) =
      [.ok ⟨[97], [1]⟩, .error (.ColumnMismatch 1 2)] ∧
    csvRun 6 (initCsv [97, 10, 120, 44, 121] 44 true) =
      [.ok ⟨[97], [1]⟩, .ok ⟨[120, 44, 121], [1, 3]⟩] ∧
    Row.fields ⟨[97], [1]⟩ = [[97]] ∧
    Row.fields ⟨[120, 44, 121], [1, 3]⟩ = [[120], [121]] :=
  ⟨rfl, rfl, rfl, rfl⟩

/-- C4: optional decoding leniency.  Whenever the peeked field is non-empty
and the wrapped numeric decode fails on it, `read_option` yields `none`
(absent) rather than an error, and its final state is exactly the state after
`Columns::next` — the field is consumed. -/
theorem read_option_leniency (c : Cols) (col : List Nat)
    (h1 : colsPeek c = some col) (h2 : col ≠ []) (h3 : parseNat? col = none) :
    readOptionNat c = (.ok none, (colsNext c).2) := by
  obtain ⟨pos, line, offs⟩ := c
  cases offs with
  | nil => simp [colsPeek] at h1
  | cons p rest =>
    have hcol : unquoteField (listSlice line pos p) = col := by
      simp only [colsPeek] at h1
      injection h1
    simp only [readOptionNat, colsPeek, nextNat, colsNext, hcol, h3, if_neg h2]

/-- C4 witness: decoding the field text `a` (row `a`, bytes `[97]`) as an
optional numeric succeeds with the absent value and consumes the field. -/
theorem read_option_leniency_witness :
    colsPeek ⟨0, [97], [1]⟩ = some [97] ∧ ([97] : List Nat) ≠ [] ∧
    parseNat? [97] = none ∧
    readOptionNat ⟨0, [97], [1]⟩ = (.ok none, (colsNext ⟨0, [97], [1]⟩).2) :=
  ⟨rfl, by decide, rfl, read_option_leniency ⟨0, [97], [1]⟩ [97] rfl (by decide) rfl⟩

/-- C5 (code bug): decoding the row built from input `,x` (bytes `[44,120]`,
fields `""` and `"x"`) as `(Option<usize>, String)` does NOT yield
`(absent, "x")`: the empty-field branch of `read_option` advances the offset
iterator without moving the cursor `pos`, so the following `String` field is
sliced from the unmoved cursor and comes out as `,x` (bytes `[44,120]`),
with the delimiter leaked into it. -/
theorem read_option_empty_cursor_bug :
    (csvNext (initCsv [44, 120] 44 false)).1 = some (.ok ⟨[44, 120], [0, 2]⟩) ∧
    decodeOptNatStr (Row.columns ⟨[44, 120], [0, 2]⟩) = .ok (none, [44, 120]) ∧
    ([44, 120] : List Nat) ≠ [120] :=
  ⟨rfl, rfl, by decide⟩

/-- C6: line-ending equivalence.  The inputs `a,b\n`, `a,b\r\n` and `a,b`
(end of stream) each yield exactly one row with field texts `a` and `b`;
no terminator byte appears in any field. -/
theorem line_ending_equivalence :
    csvRun 6 (initCsv [97, 44, 98, 10] 44 false) = [.ok ⟨[97, 44, 98], [1, 3]⟩] ∧
    csvRun 7 (initCsv [97, 44, 98, 13, 10] 44 false) = [.ok ⟨[97, 44, 98], [1, 3]⟩] ∧
    csvRun 5 (initCsv [97, 44, 98] 44 false) = [.ok ⟨[97, 44, 98], [1, 3]⟩] ∧
    Row.fields ⟨[97, 44, 98], [1, 3]⟩ = [[97], [98]] :=
  ⟨rfl, rfl, rfl, rfl⟩

/-- C7: malformed quoting.  Input `  "a"  ` (bytes `[32,32,34,97,34,32,32]`,
quote not at a field start) fails with `UnexpextedQuote`; input `"a"b`
(bytes `[34,97,34,98]`, closing quote followed by a byte that is neither a
quote, the delimiter nor a line terminator) fails with `UnescapedQuote`. -/
theorem malformed_quote_errors :
    (csvNext (initCsv [32, 32, 34, 97, 34, 32, 32] 44 false)).1 =
      some (.error .UnexpextedQuote) ∧
    (csvNext (initCsv [34, 97, 34, 98] 44 false)).1 = some (.error .UnescapedQuote) :=
  ⟨rfl, rfl⟩

/-- C8 counterexample: the claim that the decode error names the failing
field's 1-based position is false.  Decoding the single field `a` of the row
`a` (bytes `[97]`, the field at 1-based position 1) fails with a message
naming `0` — the remaining-iterator length after consuming — not `1`. -/
theorem decode_error_position_counterexample :
    nextNat ⟨0, [97], [1]⟩ = (.error (.Decode 0 [97]), ⟨2, [97], []⟩) ∧ (0 : Nat) ≠ 1 :=
  ⟨rfl, by decide⟩

/-- C8 amended: when the next field fails to parse, the returned `DecodeError`
names the number of fields remaining in the row after the failing field
(`self.len()` of the advanced iterator, i.e. one less than the count before
the call) together with the field's raw text — not the field's 1-based
position. -/
theorem decode_error_names_remaining (c : Cols) (col : List Nat) (c' : Cols)
    (h1 : colsNext c = (some col, c')) (h2 : parseNat? col = none) :
    nextNat c = (.error (.Decode (c.offs.length - 1) col), c') ∧
    c'.offs.length = c.offs.length - 1 := by
  obtain ⟨pos, line, offs⟩ := c
  cases offs with
  | nil => simp [colsNext] at h1
  | cons p rest =>
    simp only [colsNext, Prod.mk.injEq, Option.some.injEq] at h1
    obtain ⟨hcol, hc'⟩ := h1
    subst hc'
    constructor
    · simp only [nextNat, colsNext, hcol, h2, List.length_cons, Nat.succ_sub_one]
    · simp

/-- C8 amended, witness: on the two-field row `a,b` the failing first field
(raw text `a`) produces `Decode 1 [97]` — one field remains after it. -/
theorem decode_error_names_remaining_witness :
    colsNext ⟨0, [97, 44, 98], [1, 3]⟩ = (some [97], ⟨2, [97, 44, 98], [3]⟩) ∧
    parseNat? [97] = none ∧
    nextNat ⟨0, [97, 44, 98], [1, 3]⟩ =
      (.error (.Decode ((⟨0, [97, 44, 98], [1, 3]⟩ : Cols).offs.length - 1) [97]),
       ⟨2, [97, 44, 98], [3]⟩) ∧
    (⟨2, [97, 44, 98], [3]⟩ : Cols).offs.length =
      (⟨0, [97, 44, 98], [1, 3]⟩ : Cols).offs.length - 1 :=
  ⟨rfl, rfl,
   (decode_error_names_remaining ⟨0, [97, 44, 98], [1, 3]⟩ [97] ⟨2, [97, 44, 98], [3]⟩ rfl rfl).1,
   (decode_error_names_remaining ⟨0, [97, 44, 98], [1, 3]⟩ [97] ⟨2, [97, 44, 98], [3]⟩ rfl rfl).2⟩

/-- C9: for every row the iterator produces (from any input and any state,
with any delimiter other than `\r`), the field-end offsets are strictly
increasing and the last offset equals the length of the row's byte buffer
after the trailing terminator has been stripped. -/
theorem row_offsets_invariant (s : CsvState) (row : Row) (s' : CsvState)
    (hd : s.delim ≠ 13) (h : csvNext s = (some (.ok row), s')) :
    List.Chain' (· < ·) row.cols ∧ row.cols.getLast? = some row.line.length := by
  unfold csvNext at h
  by_cases hx : s.exit
  · rw [if_pos hx] at h
    injection h with h1 _
    exact Option.noConfusion h1
  · rw [if_neg hx] at h
    cases hr : readLine s.input s.delim with
    | error e =>
      rw [hr] at h
      injection h with h1 _
      injection h1 with h1
      exact Except.noConfusion h1
    | ok t =>
      obtain ⟨buf, cols, used, rest⟩ := t
      rw [hr] at h
      dsimp only at h
      obtain ⟨hchain, hmem⟩ :=
        scan_inv s.delim s.input false 0 0 none [] [] (buf, cols, used, rest) hr rfl
          List.chain'_nil (by simp)
      by_cases hu : used = 0
      · rw [if_pos hu] at h
        injection h with h1 _
        exact Option.noConfusion h1
      · rw [if_neg hu] at h
        have hfin := final_cols s.delim hd buf cols hchain hmem
        cases hl : s.len with
        | none =>
          rw [hl] at h
          dsimp only at h
          injection h with h1 _
          injection h1 with h1
          injection h1 with h1
          subst h1
          exact hfin
        | some n =>
          rw [hl] at h
          dsimp only at h
          by_cases hc : n ≠ (cols ++ [(popCR buf).length]).length ∧ s.flexible = false
          · rw [if_pos hc] at h
            injection h with h1 _
            injection h1 with h1
            exact Except.noConfusion h1
          · rw [if_neg hc] at h
            injection h with h1 _
            injection h1 with h1
            injection h1 with h1
            subst h1
            exact hfin

/-- C9 witness: the row produced from input `a,b` has offsets `[1,3]`,
strictly increasing with last offset `3` = the buffer length. -/
theorem row_offsets_invariant_witness :
    List.Chain' (· < ·) (Row.mk [97, 44, 98] [1, 3]).cols ∧
    (Row.mk [97, 44, 98] [1, 3]).cols.getLast? = some (Row.mk [97, 44, 98] [1, 3]).line.length :=
  row_offsets_invariant (initCsv [97, 44, 98] 44 false) ⟨[97, 44, 98], [1, 3]⟩
    ⟨[], 44, false, some 2, false⟩ (by decide) rfl

/-- C10 (code bug): the in-bounds guarantee fails on the one-byte input `"`
(a lone opening quote, byte `[34]`).  The tokenizer produces the row with
`line = [34]` and `cols = [1]`; its only raw field slice is the single byte
`"`, which starts with a quote but has length 1, so the unquoting indexing
`&s[1..s.len() - 1]` of `Columns::next` / `BytesColumns::next` is out of
bounds (a panic in the Rust code). -/
theorem lone_quote_slice_bug :
    (csvNext (initCsv [34] 44 false)).1 = some (.ok ⟨[34], [1]⟩) ∧
    Row.rawFields ⟨[34], [1]⟩ = [[34]] ∧
    ¬ quoteSliceSafe [34] :=
  ⟨rfl, rfl, fun h => absurd (h rfl) (by decide)⟩

end QuickCsv
